import Mathlib

/-!
Verification development for the pfp field DOM (src/pfp/fields.py).

The Python module defines a tree of "field" objects that parse themselves
from a byte stream and build themselves back to bytes:
  * `NumberBase` and its subclasses (Char, UChar, Short, UShort, Int, UInt,
    Int64, UInt64, Float, Double): fixed-width numbers, configurable
    endianness, decoded with `struct.unpack` / encoded with `struct.pack`;
  * `String` / `WString`: terminator-delimited text;
  * `Array`: homogeneous repetition, count possibly taken from another
    field's value;
  * `Struct`: ordered children plus a name -> child map, with custom
    `__getattr__` / `__setattr__`.

Streams are modelled as `List Nat` of byte values, Python `None`-able
results as `Option`, raised exceptions as `Except`/`Option` failure.
Object identity of child fields (Python references) is modelled with an
explicit heap `List NumField` addressed by position, so that a Struct's
ordered child list and its name map can alias the same object.
-/

/-- Error taxonomy. Modelled from the spec: the repository's `errors`
module (referenced as `from . import errors`; `errors.PrematureEOF`) is
not under src/, so the exception classes are taken from the spec's error
taxonomy (PrematureEndOfInput). `typeError` models Python's built-in
`TypeError`, raised by `res += child._pfp__parse(stream)` in
`Struct._pfp__parse` when a child's parse returns `None`. -/
inductive PfpError
  | prematureEOF
  | typeError
deriving DecidableEq

/-- Byte order marker: `BIG_ENDIAN = ">"`, `LITTLE_ENDIAN = "<"`. -/
inductive Endian
  | big
  | little
deriving DecidableEq

/-- Numeric codec of a `struct` format character: two's-complement signed
integer ("b","h","i","q"), unsigned integer ("B","H","I","Q"), or IEEE-754
bits ("f","d").  IEEE values are represented by their bit patterns (a
`Float`'s valid domain is exactly the 2^32 single-precision bit patterns,
and `struct.pack`/`unpack` transports those bits exactly), so `ieeeBits`
decodes like an unsigned integer of the same width. -/
inductive Codec
  | signedInt
  | unsignedInt
  | ieeeBits
deriving DecidableEq

/-- Little-endian byte list (least significant first) of `n`, `w` bytes. -/
def natToBytesLE : Nat → Nat → List Nat
  | 0, _ => []
  | w + 1, n => n % 256 :: natToBytesLE w (n / 256)

/-- Value of a little-endian byte list. -/
def bytesFromLE : List Nat → Nat
  | [] => 0
  | b :: rest => b + 256 * bytesFromLE rest

/-- Apply the byte order: `struct` emits the most significant byte first
for ">" and least significant first for "<". -/
def byteOrder : Endian → List Nat → List Nat
  | .little, l => l
  | .big, l => l.reverse

/-- Model of `struct.pack("{endian}{format}", value)` for a `w`-byte
integer format: the two's-complement byte image of `value`.  (For values
inside the format's domain this agrees with CPython; `struct.error` on
out-of-domain values is not modelled, all claims restrict to the domain.) -/
def encodeNum (e : Endian) (w : Nat) (i : Int) : List Nat :=
  byteOrder e (natToBytesLE w (i % (2 ^ (8 * w)) : Int).toNat)

/-- Model of `struct.unpack("{endian}{format}", bytes)[0]` for a `w`-byte
format with codec `cd`. -/
def decodeNum (e : Endian) (w : Nat) (cd : Codec) (bs : List Nat) : Int :=
  let n := bytesFromLE (byteOrder e bs)
  match cd with
  | .signedInt => if n < 2 ^ (8 * w - 1) then (n : Int) else (n : Int) - 2 ^ (8 * w)
  | _ => (n : Int)

theorem natToBytesLE_length (w : Nat) : ∀ n, (natToBytesLE w n).length = w := by
  induction w with
  | zero => intro n; rfl
  | succ w ih => intro n; simp [natToBytesLE, ih]

theorem bytesFromLE_natToBytesLE (w : Nat) :
    ∀ n, n < 2 ^ (8 * w) → bytesFromLE (natToBytesLE w n) = n := by
  induction w with
  | zero =>
    intro n h
    simp [Nat.pow_zero] at h
    simp [natToBytesLE, bytesFromLE, h]
  | succ w ih =>
    intro n h
    have hpow : 2 ^ (8 * (w + 1)) = 2 ^ (8 * w) * 256 := by
      rw [Nat.mul_succ, pow_add]
      norm_num
    have hdiv : n / 256 < 2 ^ (8 * w) := by
      rw [hpow] at h
      omega
    simp only [natToBytesLE, bytesFromLE, ih _ hdiv]
    omega

theorem byteOrder_byteOrder (e : Endian) (l : List Nat) :
    byteOrder e (byteOrder e l) = l := by
  cases e <;> simp [byteOrder]

theorem byteOrder_length (e : Endian) (l : List Nat) :
    (byteOrder e l).length = l.length := by
  cases e <;> simp [byteOrder]

theorem encodeNum_length (e : Endian) (w : Nat) (i : Int) :
    (encodeNum e w i).length = w := by
  simp [encodeNum, byteOrder_length, natToBytesLE_length]

theorem decodeNum_encodeNum_unsigned (e : Endian) (w : Nat) (cd : Codec)
    (hcd : cd ≠ .signedInt) (i : Int) (h0 : 0 ≤ i) (h1 : i < 2 ^ (8 * w)) :
    decodeNum e w cd (encodeNum e w i) = i := by
  have hMnat : ((2 ^ (8 * w) : Nat) : Int) = 2 ^ (8 * w) := by push_cast; ring
  have hmod : (i % (2 ^ (8 * w)) : Int) = i := Int.emod_eq_of_lt h0 h1
  have htn : (((i % (2 ^ (8 * w)) : Int)).toNat : Int) = i := by
    rw [hmod, Int.toNat_of_nonneg h0]
  have hlt : ((i % (2 ^ (8 * w)) : Int)).toNat < 2 ^ (8 * w) := by
    have : (((i % (2 ^ (8 * w)) : Int)).toNat : Int) < ((2 ^ (8 * w) : Nat) : Int) := by
      rw [htn, hMnat]; exact h1
    exact_mod_cast this
  unfold decodeNum encodeNum
  rw [byteOrder_byteOrder, bytesFromLE_natToBytesLE _ _ hlt]
  cases cd with
  | signedInt => exact absurd rfl hcd
  | unsignedInt => simpa using htn
  | ieeeBits => simpa using htn

theorem decodeNum_encodeNum_signed (e : Endian) (w : Nat) (hw : 1 ≤ w) (i : Int)
    (h0 : -(2 ^ (8 * w - 1)) ≤ i) (h1 : i < 2 ^ (8 * w - 1)) :
    decodeNum e w .signedInt (encodeNum e w i) = i := by
  have h8 : 8 * w = (8 * w - 1) + 1 := by omega
  have hsplit : (2 : Int) ^ (8 * w) = 2 ^ (8 * w - 1) * 2 := by
    conv_lhs => rw [h8]
    rw [pow_succ]
  have hPpos : (0 : Int) < 2 ^ (8 * w - 1) := by positivity
  have hPnat : ((2 ^ (8 * w - 1) : Nat) : Int) = 2 ^ (8 * w - 1) := by push_cast; ring
  have hMnat : ((2 ^ (8 * w) : Nat) : Int) = 2 ^ (8 * w) := by push_cast; ring
  rcases le_or_lt 0 i with hpos | hneg
  · -- nonnegative values encode as themselves
    have hiM : i < 2 ^ (8 * w) := by rw [hsplit]; omega
    have hmod : (i % (2 ^ (8 * w)) : Int) = i := Int.emod_eq_of_lt hpos hiM
    have htn : (((i % (2 ^ (8 * w)) : Int)).toNat : Int) = i := by
      rw [hmod, Int.toNat_of_nonneg hpos]
    have hlt : ((i % (2 ^ (8 * w)) : Int)).toNat < 2 ^ (8 * w) := by
      have : (((i % (2 ^ (8 * w)) : Int)).toNat : Int) < ((2 ^ (8 * w) : Nat) : Int) := by
        rw [htn, hMnat]; exact hiM
      exact_mod_cast this
    have hltP : ((i % (2 ^ (8 * w)) : Int)).toNat < 2 ^ (8 * w - 1) := by
      have : (((i % (2 ^ (8 * w)) : Int)).toNat : Int) < ((2 ^ (8 * w - 1) : Nat) : Int) := by
        rw [htn, hPnat]; exact h1
      exact_mod_cast this
    unfold decodeNum encodeNum
    rw [byteOrder_byteOrder, bytesFromLE_natToBytesLE _ _ hlt]
    simp only [hltP, if_true]
    exact htn
  · -- negative values encode as value + 2^(8w)
    have hge : (0 : Int) ≤ i + 2 ^ (8 * w) := by rw [hsplit]; omega
    have hltM : i + 2 ^ (8 * w) < 2 ^ (8 * w) := by omega
    have hmod : (i % (2 ^ (8 * w)) : Int) = i + 2 ^ (8 * w) := by
      have h : (i + 2 ^ (8 * w)) % (2 ^ (8 * w)) = i % (2 ^ (8 * w)) := by
        have h' := Int.add_mul_emod_self_left (a := i) (b := (2 : Int) ^ (8 * w)) (c := 1)
        rwa [mul_one] at h'
      rw [← h, Int.emod_eq_of_lt hge hltM]
    have htn : (((i % (2 ^ (8 * w)) : Int)).toNat : Int) = i + 2 ^ (8 * w) := by
      rw [hmod, Int.toNat_of_nonneg hge]
    have hlt : ((i % (2 ^ (8 * w)) : Int)).toNat < 2 ^ (8 * w) := by
      have : (((i % (2 ^ (8 * w)) : Int)).toNat : Int) < ((2 ^ (8 * w) : Nat) : Int) := by
        rw [htn, hMnat]; exact hltM
      exact_mod_cast this
    have hgeP : ¬ ((i % (2 ^ (8 * w)) : Int)).toNat < 2 ^ (8 * w - 1) := by
      intro hcon
      have : (((i % (2 ^ (8 * w)) : Int)).toNat : Int) < ((2 ^ (8 * w - 1) : Nat) : Int) := by
        exact_mod_cast hcon
      rw [htn, hPnat] at this
      rw [hsplit] at this
      omega
    unfold decodeNum encodeNum
    rw [byteOrder_byteOrder, bytesFromLE_natToBytesLE _ _ hlt]
    simp only [hgeP, if_false]
    rw [htn]
    ring

/-- State of a `NumberBase` instance: the class-level configuration
(`endian`, `width`, `format` codec), the semantic value `_pfp__value`
(class default 0), the raw bytes `_pfp__data` captured by the last
successful parse (absent before), and `_pfp__name` (set by a containing
`Struct._pfp__add_child`, `None` before attachment). -/
structure NumField where
  endian : Endian
  width : Nat
  codec : Codec
  value : Int
  data : Option (List Nat) := none
  pfpName : Option String := none
deriving DecidableEq

/-- Model of `NumberBase._pfp__parse(stream)` as a state transformer:
`stream.read(width)` returns the next `width` bytes (fewer at end of
input); if fewer than `width` were read, `errors.PrematureEOF` is raised
before any attribute of the field is assigned, so the field state is
returned unchanged; otherwise `_pfp__data` and `_pfp__value` are set and
the method returns `self.width`.  Result: (field state after the call,
remaining stream, raised error or returned byte count). -/
def numberParseField (f : NumField) (s : List Nat) :
    NumField × List Nat × Except PfpError Nat :=
  if s.length < f.width then
    (f, s.drop f.width, .error .prematureEOF)
  else
    ({ f with
        data := some (s.take f.width),
        value := decodeNum f.endian f.width f.codec (s.take f.width) },
      s.drop f.width, .ok f.width)

/-- Model of `NumberBase._pfp__build(stream=None)`: `struct.pack` of the
current value. -/
def numberBuildField (f : NumField) : List Nat :=
  encodeNum f.endian f.width f.value

/-- Model of `String._pfp__parse`'s read loop: read one byte at a time;
a short read (end of input) raises `PrematureEOF`; a terminator byte
(`"\x00"`, i.e. 0) stops the loop and is discarded; every other byte is
accumulated.  Returns (accumulated value bytes, remaining stream). -/
def stringParse : List Nat → Option (List Nat × List Nat)
  | [] => none
  | b :: rest =>
    if b = 0 then some ([], rest)
    else (stringParse rest).map (fun p => (b :: p.1, p.2))

/-- Model of `String._pfp__build(stream=None)`: the value bytes followed
by the single-byte terminator `"\x00"`. -/
def stringBuild (v : List Nat) : List Nat :=
  v ++ [0]

/-- Byte image of a list of UTF-16 code units in UTF-16LE order (low byte
first).  A Python 2 `unicode` value is a sequence of UTF-16 code units,
and `.encode("utf-16le")` emits exactly these byte pairs. -/
def utf16leBytes : List Nat → List Nat
  | [] => []
  | u :: us => u % 256 :: u / 256 :: utf16leBytes us

/-- Model of `WString._pfp__parse`: `String._pfp__parse` with
`read_size = 2` and terminator `"\x00\x00"` (the byte pair (0,0)), then
`.decode("utf-16le")` of the accumulated bytes, i.e. the accumulated
two-byte units re-read as code units.  Returns (code units, remaining
stream); `none` models `PrematureEOF` on a short read. -/
def wstringParse : List Nat → Option (List Nat × List Nat)
  | [] => none
  | [_] => none
  | b0 :: b1 :: rest =>
    if b0 = 0 ∧ b1 = 0 then some ([], rest)
    else (wstringParse rest).map (fun p => ((b0 + 256 * b1) :: p.1, p.2))

/-- Model of `WString._pfp__build(stream=None)`: the UTF-16LE encoding of
the value followed by the two-byte terminator `"\x00\x00"`. -/
def wstringBuild (us : List Nat) : List Nat :=
  utf16leBytes us ++ [0, 0]

theorem stringParse_terminated (v : List Nat) (hv : ∀ b ∈ v, b ≠ 0) :
    ∀ rest, stringParse (v ++ 0 :: rest) = some (v, rest) := by
  induction v with
  | nil => intro rest; simp [stringParse]
  | cons b v ih =>
    intro rest
    have hb : b ≠ 0 := hv b (by simp)
    have hv' : ∀ x ∈ v, x ≠ 0 := fun x hx => hv x (by simp [hx])
    simp [stringParse, hb, ih hv' rest]

theorem wstringParse_terminated (us : List Nat) (hu : ∀ u ∈ us, u ≠ 0) :
    ∀ rest, wstringParse (utf16leBytes us ++ 0 :: 0 :: rest) = some (us, rest) := by
  induction us with
  | nil => intro rest; simp [utf16leBytes, wstringParse]
  | cons u us ih =>
    intro rest
    have hune : u ≠ 0 := hu u (by simp)
    have hterm : ¬ (u % 256 = 0 ∧ u / 256 = 0) := by
      rintro ⟨hm, hd⟩
      omega
    have hu' : ∀ x ∈ us, x ≠ 0 := fun x hx => hu x (by simp [hx])
    have hval : u % 256 + 256 * (u / 256) = u := by omega
    simp [utf16leBytes, wstringParse, hterm, ih hu' rest, hval]

/-- The concrete `NumberBase` subclasses with their class-level `width`
and `format`: Char(1,"b"), UChar(1,"B"), Short(2,"h"), UShort(2,"H"),
Int(4,"i"), UInt(4,"I"), Int64(8,"q"), UInt64(8,"Q"), Float(4,"f"),
Double(8,"d"). -/
inductive NumClass
  | char
  | uchar
  | short
  | ushort
  | int
  | uint
  | int64
  | uint64
  | float
  | double
deriving DecidableEq

/-- Class attribute `width` (number of bytes). -/
def classWidth : NumClass → Nat
  | .char | .uchar => 1
  | .short | .ushort => 2
  | .int | .uint | .float => 4
  | .int64 | .uint64 | .double => 8

/-- Codec of the class's `format` character. -/
def classCodec : NumClass → Codec
  | .char | .short | .int | .int64 => .signedInt
  | .uchar | .ushort | .uint | .uint64 => .unsignedInt
  | .float | .double => .ieeeBits

/-- A freshly constructed instance of a `NumberBase` subclass: class
default endianness `BIG_ENDIAN`, class default `_pfp__value = 0`, no
`_pfp__data`, `_pfp__name = None` (set by `Field.__init__`). -/
def classInit (e : Endian) (c : NumClass) : NumField :=
  { endian := e, width := classWidth c, codec := classCodec c, value := 0 }

/-- Lower bound of the `struct` format's domain. -/
def validLo (c : NumClass) : Int :=
  match classCodec c with
  | .signedInt => -(2 ^ (8 * classWidth c - 1))
  | _ => 0

/-- Upper bound (exclusive) of the `struct` format's domain. -/
def validHi (c : NumClass) : Int :=
  match classCodec c with
  | .signedInt => 2 ^ (8 * classWidth c - 1)
  | _ => 2 ^ (8 * classWidth c)

/-- A value inside the numeric domain of class `c` (for Float/Double: a
bit pattern of the right width). -/
def validNum (c : NumClass) (i : Int) : Prop :=
  validLo c ≤ i ∧ i < validHi c

instance (c : NumClass) (i : Int) : Decidable (validNum c i) :=
  inferInstanceAs (Decidable (_ ∧ _))

/-- The concrete field types covered by the round-trip law. -/
inductive CType
  | num (c : NumClass)
  | str
  | wstr
deriving DecidableEq

/-- A semantic field value: a number (or IEEE bit pattern), the byte
content of a `String`, or the UTF-16 code units of a `WString`. -/
inductive CVal
  | intV (i : Int)
  | textV (bs : List Nat)
  | wtextV (us : List Nat)
deriving DecidableEq

/-- Valid values of each concrete type's domain: numbers inside the
format's range; text without an embedded terminator (byte values below
256, no zero byte for `String`; code units below 2^16, no NUL unit for
`WString`). -/
def validFor : CType → CVal → Prop
  | .num c, .intV i => validNum c i
  | .str, .textV bs => ∀ b ∈ bs, b < 256 ∧ b ≠ 0
  | .wstr, .wtextV us => ∀ u ∈ us, u < 65536 ∧ u ≠ 0
  | _, _ => False

instance : (t : CType) → (v : CVal) → Decidable (validFor t v)
  | .num c, .intV i => inferInstanceAs (Decidable (validNum c i))
  | .num _, .textV _ => inferInstanceAs (Decidable False)
  | .num _, .wtextV _ => inferInstanceAs (Decidable False)
  | .str, .intV _ => inferInstanceAs (Decidable False)
  | .str, .textV bs => inferInstanceAs (Decidable (∀ b ∈ bs, b < 256 ∧ b ≠ 0))
  | .str, .wtextV _ => inferInstanceAs (Decidable False)
  | .wstr, .intV _ => inferInstanceAs (Decidable False)
  | .wstr, .textV _ => inferInstanceAs (Decidable False)
  | .wstr, .wtextV us => inferInstanceAs (Decidable (∀ u ∈ us, u < 65536 ∧ u ≠ 0))

/-- `_pfp__build(stream=None)` of a field of type `t` holding value `v`
(the numeric classes pack the value; `String`/`WString` append their
terminator). -/
def buildOf (e : Endian) : CType → CVal → List Nat
  | .num c, .intV i => encodeNum e (classWidth c) i
  | .str, .textV bs => stringBuild bs
  | .wstr, .wtextV us => wstringBuild us
  | _, _ => []

/-- `_pfp__parse(stream)` of a freshly constructed field of type `t`,
returning the semantic value it stores (`None`/errors as `none`). -/
def parseOf (e : Endian) : CType → List Nat → Option CVal
  | .num c, s =>
    match numberParseField (classInit e c) s with
    | (f, _, .ok _) => some (.intV f.value)
    | (_, _, .error _) => none
  | .str, s => (stringParse s).map (fun p => .textV p.1)
  | .wstr, s => (wstringParse s).map (fun p => .wtextV p.1)

theorem classWidth_pos (c : NumClass) : 1 ≤ classWidth c := by
  cases c <;> decide

/-- C1: for every concrete field type (every `NumberBase` subclass at
either endianness, `String`, `WString`) and every valid value within that
type's domain, building the field to bytes and then parsing those bytes
back yields exactly the original value (numeric/bit-pattern exactness for
integer and float fields, exact text equality excluding the terminator
for the text fields). -/
theorem c1_round_trip (e : Endian) (t : CType) (v : CVal) (h : validFor t v) :
    parseOf e t (buildOf e t v) = some v := by
  cases t with
  | num c =>
    cases v with
    | intV i =>
      have hlen : (encodeNum e (classWidth c) i).length = classWidth c :=
        encodeNum_length e (classWidth c) i
      have hnotlt : ¬ (encodeNum e (classWidth c) i).length < (classInit e c).width := by
        simp [classInit, hlen]
      have htake : (encodeNum e (classWidth c) i).take (classInit e c).width
          = encodeNum e (classWidth c) i := by
        have hwidth : (classInit e c).width = classWidth c := rfl
        rw [hwidth]
        exact List.take_of_length_le (le_of_eq hlen)
      obtain ⟨ha, hb⟩ : validLo c ≤ i ∧ i < validHi c := h
      have hdec : decodeNum e (classWidth c) (classCodec c)
          (encodeNum e (classWidth c) i) = i := by
        rcases hcd : classCodec c with hs | hu | hbits
        · have hlo : validLo c = -(2 ^ (8 * classWidth c - 1)) := by
            simp [validLo, hcd]
          have hhi : validHi c = 2 ^ (8 * classWidth c - 1) := by
            simp [validHi, hcd]
          rw [hlo] at ha
          rw [hhi] at hb
          exact decodeNum_encodeNum_signed e (classWidth c) (classWidth_pos c) i ha hb
        · have hlo : validLo c = 0 := by simp [validLo, hcd]
          have hhi : validHi c = 2 ^ (8 * classWidth c) := by simp [validHi, hcd]
          rw [hlo] at ha
          rw [hhi] at hb
          exact decodeNum_encodeNum_unsigned e (classWidth c) _ (by simp) i ha hb
        · have hlo : validLo c = 0 := by simp [validLo, hcd]
          have hhi : validHi c = 2 ^ (8 * classWidth c) := by simp [validHi, hcd]
          rw [hlo] at ha
          rw [hhi] at hb
          exact decodeNum_encodeNum_unsigned e (classWidth c) _ (by simp) i ha hb
      simp only [buildOf, parseOf, numberParseField, hnotlt, if_false, htake]
      simp only [classInit]
      rw [hdec]
    | textV bs => exact h.elim
    | wtextV us => exact h.elim
  | str =>
    cases v with
    | intV i => exact h.elim
    | textV bs =>
      have hb : ∀ b ∈ bs, b ≠ 0 := fun b hbm => (h b hbm).2
      simp [parseOf, buildOf, stringBuild, stringParse_terminated bs hb []]
    | wtextV us => exact h.elim
  | wstr =>
    cases v with
    | intV i => exact h.elim
    | textV bs => exact h.elim
    | wtextV us =>
      have hu : ∀ u ∈ us, u ≠ 0 := fun u hum => (h u hum).2
      have hterm : utf16leBytes us ++ [0, 0] = utf16leBytes us ++ 0 :: 0 :: [] := rfl
      simp [parseOf, buildOf, wstringBuild, hterm, wstringParse_terminated us hu []]

/-- Witness for C1 at a concrete input: the 4-byte signed `Int` class,
value -5, big-endian. -/
theorem c1_round_trip_witness :
    validFor (.num .int) (.intV (-5)) ∧
      parseOf .big (.num .int) (buildOf .big (.num .int) (.intV (-5)))
        = some (.intV (-5)) :=
  ⟨by decide, c1_round_trip .big (.num .int) (.intV (-5)) (by decide)⟩

/-- A sample 4-byte signed `Int` field holding value 5. -/
def sampleInt5 : NumField :=
  { classInit .big .int with value := 5 }

/-- C4: parsing a 4-byte `Int` from a stream that yields fewer than 4
bytes raises `PrematureEOF` (the length check precedes every attribute
assignment in `NumberBase._pfp__parse`), so the field — in particular its
semantic value — is exactly as it was before the call. -/
theorem c4_short_read (f : NumField) (s : List Nat)
    (hw : f.width = 4) (hs : s.length < 4) :
    numberParseField f s = (f, [], .error .prematureEOF) := by
  have hlt : s.length < f.width := by omega
  have hdrop : s.drop f.width = [] := by
    apply List.drop_eq_nil_of_le
    omega
  simp [numberParseField, hlt, hdrop]

/-- Witness for C4: `sampleInt5` against a two-byte stream. -/
theorem c4_short_read_witness :
    numberParseField sampleInt5 [1, 2] = (sampleInt5, [], .error .prematureEOF) :=
  c4_short_read sampleInt5 [1, 2] rfl (by decide)

/-- State of a `String` (or `WString`) instance.  Unlike `NumberBase`,
`class String(Field)` declares no class-level `_pfp__value`, and
`Field.__init__` only sets `_pfp__name = None`; so a freshly constructed,
never-parsed instance has no `_pfp__value` attribute at all, modelled as
`value = none`. -/
structure StrField where
  value : Option (List Nat)
  pfpName : Option String
deriving DecidableEq

/-- A freshly constructed `String()` (also `WString()`): `Field.__init__`
sets `_pfp__name = None` and, with no stream supplied, nothing else. -/
def stringInitField : StrField :=
  { value := none, pfpName := none }

/-- Model of `get_value(field)` / `field._pfp__value` on a text field:
`none` models Python raising `AttributeError` because the instance has no
`_pfp__value` attribute. -/
def queryStrValue (f : StrField) : Option (List Nat) :=
  f.value

/-- Model of `get_value(field)` on a `NumberBase` instance: the class
attribute `_pfp__value = 0` always exists, so the query always succeeds. -/
def queryNumValue (f : NumField) : Option Int :=
  some f.value

/-- Counterexample to C5 as stated: `String` is a concrete field type,
yet a freshly constructed, never-parsed `String()` has no `_pfp__value`
attribute — querying its value raises `AttributeError` (modelled `none`)
instead of returning a zero-equivalent default. -/
theorem c5_default_counterexample :
    queryStrValue stringInitField = none :=
  rfl

/-- C5 (amended): only the numeric fields have the claimed default —
every `NumberBase` subclass instance starts with `_pfp__value = 0` and
querying it never raises; a never-parsed `String`/`WString` has no value
attribute, so querying it raises `AttributeError`. -/
theorem c5_default_amended :
    (∀ e : Endian, ∀ c : NumClass, queryNumValue (classInit e c) = some 0) ∧
      queryStrValue stringInitField = none := by
  constructor
  · intro e c
    rfl
  · rfl

/-- Witness for C5 (amended) at the `Int` class. -/
theorem c5_default_amended_witness :
    queryNumValue (classInit .big .int) = some 0 :=
  c5_default_amended.1 .big .int

/-- The kinds of children used to model `Struct._pfp__parse`'s use of its
children's return values: a `w`-byte numeric child or a `String` child. -/
inductive ChildKind
  | numK (w : Nat)
  | strK
deriving DecidableEq

/-- Python return value and stream effect of `child._pfp__parse(stream)`:
a numeric child returns `self.width` (`some w`); `String._pfp__parse`
assigns `self._pfp__value = res` and ends with no `return` statement, so
Python returns `None` (`none`) even though the terminated string's bytes
were consumed from the stream.  (`Array._pfp__parse` likewise has no
`return` statement.) -/
def childParseRet : ChildKind → List Nat → Except PfpError (Option Nat × List Nat)
  | .numK w, s =>
    if s.length < w then .error .prematureEOF else .ok (some w, s.drop w)
  | .strK, s =>
    match stringParse s with
    | none => .error .prematureEOF
    | some (_, rest) => .ok (none, rest)

/-- Model of `Struct._pfp__parse`: `res = 0`, then for each child in
order `res += child._pfp__parse(stream)`.  When a child's parse returns
`None`, the `int + None` addition raises `TypeError`. -/
def structParseRet : List ChildKind → List Nat → Except PfpError (Nat × List Nat)
  | [], s => .ok (0, s)
  | k :: rest, s =>
    match childParseRet k s with
    | .error er => .error er
    | .ok (none, _) => .error .typeError
    | .ok (some n, s') =>
      match structParseRet rest s' with
      | .error er => .error er
      | .ok (m, s'') => .ok (n + m, s'')

/-- C2 is a code bug: `NumberBase._pfp__parse` does return its byte count
and `Struct._pfp__parse` does return the sum of its children's returns,
but `String._pfp__parse` (and `Array._pfp__parse`) end without a `return`
statement, so they return `None` — here, a `String` child parsed from the
3 bytes "hi\x00" consumes all 3 bytes yet returns `None`, and a `Struct`
holding that child crashes with `TypeError` when it adds `None` to its
running total. -/
theorem c2_parse_return_values :
    childParseRet .strK [104, 105, 0] = .ok (none, []) ∧
      childParseRet (.numK 4) [0, 0, 0, 7] = .ok (some 4, []) ∧
      structParseRet [.numK 2, .numK 4] [0, 1, 2, 3, 4, 5] = .ok (6, []) ∧
      structParseRet [.strK] [104, 105, 0] = .error .typeError := by
  refine ⟨?_, ?_, ?_, ?_⟩ <;> rfl

/-- Association-list lookup, modelling Python dict read
`children_map[name]` / `name in children_map`. -/
def assocGet {α : Type} : List (String × α) → String → Option α
  | [], _ => none
  | (k, v) :: rest, key => if k = key then some v else assocGet rest key

/-- Association-list write, modelling Python dict write
`children_map[name] = value`: replace the binding if the key is present,
append it otherwise. -/
def assocSet {α : Type} : List (String × α) → String → α → List (String × α)
  | [], key, v => [(key, v)]
  | (k, w) :: rest, key, v =>
    if k = key then (key, v) :: rest else (k, w) :: assocSet rest key v

theorem assocGet_assocSet_self {α : Type} (m : List (String × α)) (k : String) (v : α) :
    assocGet (assocSet m k v) k = some v := by
  induction m with
  | nil => simp [assocSet, assocGet]
  | cons p rest ih =>
    by_cases hk : p.1 = k
    · simp [assocSet, hk, assocGet]
    · simp [assocSet, hk, assocGet, ih]

/-- Update the heap object at index `id` in place (identity-preserving
object mutation: every reference to index `id` sees the new state). -/
def heapUpd : List NumField → Nat → (NumField → NumField) → List NumField
  | [], _, _ => []
  | f :: rest, 0, g => g f :: rest
  | f :: rest, n + 1, g => f :: heapUpd rest n g

theorem heapUpd_get_self (heap : List NumField) :
    ∀ (id : Nat) (g : NumField → NumField),
      (heapUpd heap id g).get? id = (heap.get? id).map g := by
  induction heap with
  | nil => intro id g; cases id <;> rfl
  | cons f rest ih =>
    intro id g
    cases id with
    | zero => rfl
    | succ n => simpa [heapUpd] using ih n g

theorem heapUpd_get_ne (heap : List NumField) :
    ∀ (id j : Nat) (g : NumField → NumField), j ≠ id →
      (heapUpd heap id g).get? j = heap.get? j := by
  induction heap with
  | nil => intro id j g _; cases id <;> rfl
  | cons f rest ih =>
    intro id j g hne
    cases id with
    | zero =>
      cases j with
      | zero => exact absurd rfl hne
      | succ m => rfl
    | succ n =>
      cases j with
      | zero => rfl
      | succ m => simpa [heapUpd] using ih n m g (by omega)

/-- A value on the right-hand side of a Python assignment into a Struct
attribute: either a bare scalar or a `Field` instance (a heap reference),
the two cases `Struct.__setattr__` distinguishes with
`isinstance(value, Field)`. -/
inductive SetVal
  | scalar (x : Int)
  | fieldRef (id : Nat)
deriving DecidableEq

/-- State of a `Struct` instance: `_pfp__children` (ordered list of child
references, set only by `_pfp__add_child`), `_pfp__children_map` (the
name index), `_pfp__name` (set to `None` by `Field.__init__`), and the
remaining plain instance attributes touched by the default
`object.__setattr__` branch. -/
structure StructSt where
  children : List Nat
  childrenMap : List (String × Nat)
  pfpName : Option String
  attrs : List (String × SetVal)
deriving DecidableEq

/-- Model of `Struct._pfp__add_child(name, child)`: append the child
reference to the ordered sequence, stamp the child's `_pfp__name`, and
bind the name-index entry to the same reference. -/
def addChild (st : StructSt) (heap : List NumField) (name : String) (id : Nat) :
    StructSt × List NumField :=
  ({ st with
      children := st.children ++ [id],
      childrenMap := assocSet st.childrenMap name id },
    heapUpd heap id (fun f => { f with pfpName := some name }))

/-- Model of `Struct.__setattr__(name, value)`: if `name` is in
`_pfp__children_map`, a non-`Field` value is written into the mapped
child's `_pfp__value` (mutating the referenced object in place), while a
`Field` value replaces only the name-index binding; otherwise the default
`object.__setattr__` stores a plain instance attribute. -/
def setattrStruct (st : StructSt) (heap : List NumField) (name : String) (v : SetVal) :
    StructSt × List NumField :=
  match assocGet st.childrenMap name with
  | some id =>
    match v with
    | .scalar x => (st, heapUpd heap id (fun f => { f with value := x }))
    | .fieldRef fid =>
      ({ st with childrenMap := assocSet st.childrenMap name fid }, heap)
  | none => ({ st with attrs := assocSet st.attrs name v }, heap)

/-- Model of `Struct._pfp__build(stream=None)` over the ordered children:
concatenate each child's `_pfp__build()` output, iterating
`_pfp__children` in order (the name map is never consulted).  `none`
models a dangling reference, which has no Python counterpart. -/
def buildChildren (heap : List NumField) : List Nat → Option (List Nat)
  | [] => some []
  | id :: rest =>
    match heap.get? id with
    | none => none
    | some f => (buildChildren heap rest).map (fun bs => numberBuildField f ++ bs)

/-- Build of a whole `Struct`. -/
def structBuild (heap : List NumField) (st : StructSt) : Option (List Nat) :=
  buildChildren heap st.children

/-- C3: assigning a `Field` value to a name already indexed in a Struct
replaces only the name-index binding: the ordered child sequence is
untouched (and the heap is untouched), so a subsequent `_pfp__build`
walks the originally attached children and produces the same output,
while `__getattr__` name lookup now resolves to the new field. -/
theorem c3_field_rebind (st : StructSt) (heap : List NumField) (name : String)
    (id0 newId : Nat) (h : assocGet st.childrenMap name = some id0) :
    (setattrStruct st heap name (.fieldRef newId)).1.children = st.children ∧
      (setattrStruct st heap name (.fieldRef newId)).2 = heap ∧
      structBuild (setattrStruct st heap name (.fieldRef newId)).2
          (setattrStruct st heap name (.fieldRef newId)).1
        = structBuild heap st ∧
      assocGet (setattrStruct st heap name (.fieldRef newId)).1.childrenMap name
        = some newId := by
  simp [setattrStruct, structBuild, h, assocGet_assocSet_self]

/-- An example Struct with a single `Int` child named "x" holding 5:
the heap holds the child object, `addChild` attaches it. -/
def exStruct : StructSt × List NumField :=
  addChild { children := [], childrenMap := [], pfpName := none, attrs := [] }
    [sampleInt5] "x" 0

/-- Witness for C3: rebinding "x" in the example struct to a new field
reference (index 7) leaves the ordered sequence and the build output
unchanged while lookup returns the new reference. -/
theorem c3_field_rebind_witness :
    (setattrStruct exStruct.1 exStruct.2 "x" (.fieldRef 7)).1.children
        = exStruct.1.children ∧
      structBuild (setattrStruct exStruct.1 exStruct.2 "x" (.fieldRef 7)).2
          (setattrStruct exStruct.1 exStruct.2 "x" (.fieldRef 7)).1
        = structBuild exStruct.2 exStruct.1 ∧
      assocGet (setattrStruct exStruct.1 exStruct.2 "x" (.fieldRef 7)).1.childrenMap "x"
        = some 7 := by
  have h := c3_field_rebind exStruct.1 exStruct.2 "x" 0 7 (by decide)
  exact ⟨h.1, h.2.2.1, h.2.2.2⟩

/-- C7: assigning a bare scalar to a name already indexed in a Struct
mutates the mapped child object's `_pfp__value` in place: the Struct
state (ordered sequence, name map) is unchanged, the same reference sits
at the same position, the referenced object now holds the new value with
every other attribute intact, and no other heap object is touched. -/
theorem c7_scalar_assign (st : StructSt) (heap : List NumField) (name : String)
    (id : Nat) (x : Int) (h : assocGet st.childrenMap name = some id) :
    setattrStruct st heap name (.scalar x)
        = (st, heapUpd heap id (fun f => { f with value := x })) ∧
      (setattrStruct st heap name (.scalar x)).2.get? id
        = (heap.get? id).map (fun f => { f with value := x }) ∧
      ∀ j, j ≠ id →
        (setattrStruct st heap name (.scalar x)).2.get? j = heap.get? j := by
  refine ⟨?_, ?_, ?_⟩
  · simp [setattrStruct, h]
  · simp only [setattrStruct, h]
    exact heapUpd_get_self heap id _
  · intro j hj
    simp only [setattrStruct, h]
    exact heapUpd_get_ne heap id j _ hj

/-- Witness for C7: in the example struct, assigning the bare scalar
5 + 1 to "x" leaves the struct state untouched and the same child (index
0, still named "x") now holds 6. -/
theorem c7_scalar_assign_witness :
    (setattrStruct exStruct.1 exStruct.2 "x" (.scalar 6)).1 = exStruct.1 ∧
      (setattrStruct exStruct.1 exStruct.2 "x" (.scalar 6)).2.get? 0
        = some { sampleInt5 with value := 6, pfpName := some "x" } := by
  have h := c7_scalar_assign exStruct.1 exStruct.2 "x" 0 6 (by decide)
  constructor
  · rw [h.1]
  · rw [h.2.1]
    decide

/-- Model of `Struct._pfp__parse(stream)` over the referenced children:
`res = 0`, then each child in order parses from the stream (mutating the
referenced object) and its returned byte count is added.  Returns the
heap after the children's mutations, the accumulated byte count, and the
remaining stream. -/
def structParseIds (heap : List NumField) :
    List Nat → List Nat → Except PfpError (List NumField × Nat × List Nat)
  | [], s => .ok (heap, 0, s)
  | id :: rest, s =>
    match heap.get? id with
    | none => .error .prematureEOF
    | some f =>
      match numberParseField f s with
      | (_, _, .error er) => .error er
      | (f', s', .ok n) =>
        match structParseIds (heapUpd heap id (fun _ => f')) rest s' with
        | .error er => .error er
        | .ok (h'', m, s'') => .ok (h'', n + m, s'')

/-- The state every `Struct(...)` construction produces: empty ordered
children, empty name map, `_pfp__name = None`, no other attributes. -/
def emptyStruct : StructSt :=
  { children := [], childrenMap := [], pfpName := none, attrs := [] }

/-- Model of `Struct.__init__(name=None)`: `_pfp__children = []` and
`_pfp__children_map = {}` are installed first; the `name` argument is
then forwarded to `Field.__init__`'s `stream` parameter, which sets
`_pfp__name = None` and — when the argument is not `None` — calls
`self._pfp__parse(argument)` on the empty child list.  The argument is
modelled as an optional stream (`none` = Python `None`); no step ever
records it as a name. -/
def structInit (arg : Option (List Nat)) : Except PfpError StructSt :=
  match arg with
  | none => .ok emptyStruct
  | some s =>
    match structParseIds [] emptyStruct.children s with
    | .error er => .error er
    | .ok _ => .ok emptyStruct

/-- C10: `Struct(name)` never records the constructor argument as the
struct's name: for every argument the result has `_pfp__name = None`,
empty ordered children and empty name index, because the argument lands
in `Field.__init__`'s `stream` parameter where — the child list being
empty — a non-`None` argument merely triggers a parse that consumes
nothing and returns without error. -/
theorem c10_struct_init (arg : Option (List Nat)) :
    structInit arg = .ok emptyStruct ∧
      emptyStruct.pfpName = none ∧
      emptyStruct.children = [] ∧
      emptyStruct.childrenMap = [] ∧
      ∀ s : List Nat, structParseIds [] emptyStruct.children s = .ok ([], 0, s) := by
  refine ⟨?_, rfl, rfl, rfl, fun s => rfl⟩
  cases arg <;> rfl

/-- Witness for C10 at a concrete non-`None` argument. -/
theorem c10_struct_init_witness :
    structInit (some [1, 2, 3]) = .ok emptyStruct :=
  (c10_struct_init (some [1, 2, 3])).1

/-- Model of `get_value` / `PYVAL` applied to an Array's `width`: a bare
value passes through, a `Field` resolves to its current `_pfp__value`. -/
def pyvalResolve (heap : List NumField) : SetVal → Option Int
  | .scalar v => some v
  | .fieldRef id => (heap.get? id).map (fun f => f.value)

/-- The element-parsing loop of `Array._pfp__parse`: for each of `n`
iterations instantiate `field_cls()` (a fresh instance of element class
`c` with its class defaults) and parse it from the stream, appending in
order. -/
def parseElems (c : NumClass) : Nat → List Nat → Except PfpError (List NumField × List Nat)
  | 0, s => .ok ([], s)
  | n + 1, s =>
    match numberParseField (classInit .big c) s with
    | (_, _, .error er) => .error er
    | (f', s', .ok _) =>
      match parseElems c n s' with
      | .error er => .error er
      | .ok (items, s'') => .ok (f' :: items, s'')

/-- Model of `Array._pfp__parse(stream)`: `self.items = []`, then
`range(PYVAL(self.width))` many elements are instantiated and parsed in
order (`range` of a negative count is empty, hence `toNat`). -/
def arrayParse (heap : List NumField) (width : SetVal) (c : NumClass) (s : List Nat) :
    Except PfpError (List NumField × List Nat) :=
  match pyvalResolve heap width with
  | none => .error .typeError
  | some n => parseElems c n.toNat s

theorem parseElems_ok (c : NumClass) :
    ∀ (n : Nat) (s : List Nat), n * classWidth c ≤ s.length →
      ∃ items, parseElems c n s = .ok (items, s.drop (n * classWidth c)) ∧
        items.length = n := by
  intro n
  induction n with
  | zero => intro s _; exact ⟨[], by simp [parseElems], rfl⟩
  | succ n ih =>
    intro s hs
    have hw : classWidth c ≤ s.length := by
      have := classWidth_pos c
      calc classWidth c ≤ (n + 1) * classWidth c := by nlinarith
        _ ≤ s.length := hs
    have hnotlt : ¬ s.length < (classInit .big c).width := by
      simp only [classInit]
      omega
    have hlen' : n * classWidth c ≤ (s.drop (classWidth c)).length := by
      simp only [List.length_drop]
      have : (n + 1) * classWidth c = n * classWidth c + classWidth c := by ring
      omega
    obtain ⟨items, hitems, hcount⟩ := ih (s.drop (classWidth c)) hlen'
    have hdropdrop : (s.drop (classWidth c)).drop (n * classWidth c)
        = s.drop ((n + 1) * classWidth c) := by
      rw [List.drop_drop]
      congr 1
      ring
    have hnum : numberParseField (classInit .big c) s
        = ({ classInit .big c with
              data := some (s.take (classWidth c)),
              value := decodeNum .big (classWidth c) (classCodec c)
                (s.take (classWidth c)) },
            s.drop (classWidth c), .ok (classWidth c)) := by
      simp only [numberParseField, hnotlt, if_false]
      rfl
    refine ⟨{ classInit .big c with
        data := some (s.take (classWidth c)),
        value := decodeNum .big (classWidth c) (classCodec c)
          (s.take (classWidth c)) } :: items, ?_, by simp [hcount]⟩
    simp only [parseElems, hnum, hitems, hdropdrop]

/-- C6: an `Array` whose `width` is a previously parsed numeric field
currently holding the non-negative value `N` resolves its count through
that field's value (`PYVAL`), instantiates and parses exactly `N`
elements of the configured element class, and consumes
`N * element_width` bytes from the stream. -/
theorem c6_array_count (heap : List NumField) (id : Nat) (wf : NumField)
    (N : Nat) (c : NumClass) (s : List Nat)
    (hget : heap.get? id = some wf) (hval : wf.value = (N : Int))
    (hs : N * classWidth c ≤ s.length) :
    (arrayParse heap (.fieldRef id) c s).toOption.map
        (fun r => (r.1.length, r.2))
      = some (N, s.drop (N * classWidth c)) := by
  obtain ⟨items, hitems, hcount⟩ := parseElems_ok c N s hs
  have hres : pyvalResolve heap (.fieldRef id) = some (N : Int) := by
    show (heap.get? id).map (fun f => f.value) = some (N : Int)
    rw [hget]
    simp [hval]
  have htn : ((N : Int)).toNat = N := Int.toNat_ofNat N
  unfold arrayParse
  rw [hres]
  simp only [htn, hitems, hcount, Except.toOption, Option.map]

/-- A one-element heap holding a previously parsed `UInt`-style count
field with value 3. -/
def countField3 : NumField :=
  { classInit .big .uint with value := 3 }

/-- Witness for C6: count field holding 3, single-byte `Char` elements,
a 3-byte stream is consumed entirely into exactly 3 elements. -/
theorem c6_array_count_witness :
    (arrayParse [countField3] (.fieldRef 0) .char [10, 20, 30]).toOption.map
        (fun r => (r.1.length, r.2))
      = some (3, []) := by
  have h := c6_array_count [countField3] 0 countField3 3 .char [10, 20, 30]
    rfl rfl (by decide)
  simpa using h

/-- CPython list index resolution, as used by the plain `self.items[idx]`
subscripts in `Array.__getitem__` / `Array.__setitem__`: a negative index
has the length added once; the result must then be in `[0, len)`, else
`IndexError` is raised (`none`). -/
def pyListIndex (len : Nat) (idx : Int) : Option Nat :=
  let j : Int := if idx < 0 then idx + len else idx
  if 0 ≤ j ∧ j < len then some j.toNat else none

/-- Model of `Array.__getitem__(idx)`: `self.items[idx]` with Python list
semantics. -/
def arrayGetItem {α : Type} (items : List α) (idx : Int) : Option α :=
  (pyListIndex items.length idx).bind (fun j => items.get? j)

/-- A value assigned into an Array slot by `Array.__setitem__`: a `Field`
object (stored outright) or a bare value (written into the existing
element via `_pfp__set_value`). -/
inductive ArrSetVal
  | fieldObj (f : NumField)
  | scalarVal (x : Int)
deriving DecidableEq

/-- Model of `Array.__setitem__(idx, value)`: resolve the index with
Python list semantics, then either replace the element (a `Field` value)
or mutate the existing element's `_pfp__value` in place (a bare value). -/
def arraySetItem (items : List NumField) (idx : Int) (v : ArrSetVal) :
    Option (List NumField) :=
  (pyListIndex items.length idx).map (fun j =>
    match v with
    | .fieldObj f => items.set j f
    | .scalarVal x => heapUpd items j (fun f => { f with value := x }))

/-- Counterexample to C8 as stated: on a one-element Array, reading and
writing at the negative index -1 both succeed (Python wraps negative
indices), instead of failing with `IndexOutOfRange`. -/
theorem c8_negative_index_counterexample :
    arrayGetItem [sampleInt5] (-1) = some sampleInt5 ∧
      arraySetItem [sampleInt5] (-1) (.scalarVal 7)
        = some [{ sampleInt5 with value := 7 }] := by
  constructor <;> decide

theorem pyListIndex_none_iff (len : Nat) (idx : Int) :
    pyListIndex len idx = none ↔ idx < -(len : Int) ∨ (len : Int) ≤ idx := by
  by_cases hneg : idx < 0
  · simp only [pyListIndex, hneg, if_true]
    split
    · rename_i h
      simp only [reduceCtorEq, false_iff]
      omega
    · rename_i h
      simp only [true_iff]
      omega
  · simp only [pyListIndex, hneg, if_false]
    split
    · rename_i h
      simp only [reduceCtorEq, false_iff]
      omega
    · rename_i h
      simp only [true_iff]
      omega

theorem pyListIndex_some_lt (len : Nat) (idx : Int) (j : Nat)
    (h : pyListIndex len idx = some j) : j < len := by
  by_cases hneg : idx < 0 <;>
    simp only [pyListIndex, hneg, if_true, if_false] at h <;>
    split at h <;>
    simp only [Option.some_inj, reduceCtorEq] at h <;>
    omega

theorem pyListIndex_neg_wrap (len : Nat) (idx : Int)
    (h1 : -(len : Int) ≤ idx) (h2 : idx < 0) :
    pyListIndex len idx = some (idx + len).toNat := by
  have hin : 0 ≤ idx + (len : Int) ∧ idx + (len : Int) < (len : Int) := by omega
  simp only [pyListIndex, h2, if_true, hin, and_self]

/-- C8 (amended): element access at index `idx` on an Array of length
`len` fails — with Python's builtin `IndexError`, the code never raises a
dedicated `IndexOutOfRange` — precisely when `idx < -len` or `idx ≥ len`;
a negative index in `[-len, -1]` wraps around and reads or writes the
element at position `len + idx`. -/
theorem c8_index_semantics (items : List NumField) (idx : Int) (v : ArrSetVal) :
    ((arrayGetItem items idx).isNone ↔
        idx < -(items.length : Int) ∨ (items.length : Int) ≤ idx) ∧
      ((arraySetItem items idx v).isNone ↔
        idx < -(items.length : Int) ∨ (items.length : Int) ≤ idx) ∧
      (-(items.length : Int) ≤ idx → idx < 0 →
        arrayGetItem items idx = items.get? (idx + items.length).toNat) := by
  have hnone := pyListIndex_none_iff items.length idx
  refine ⟨?_, ?_, ?_⟩
  · cases hpi : pyListIndex items.length idx with
    | none =>
      simp [arrayGetItem, hpi]
      exact hnone.1 hpi
    | some j =>
      have hj := pyListIndex_some_lt items.length idx j hpi
      have hne : ¬ (idx < -(items.length : Int) ∨ (items.length : Int) ≤ idx) := by
        intro hcon
        rw [hnone.2 hcon] at hpi
        exact Option.noConfusion hpi
      have hval : items.get? j = some (items.get ⟨j, hj⟩) := List.get?_eq_get hj
      simp [arrayGetItem, hpi, hval, hne]
      exact hj
  · cases hpi : pyListIndex items.length idx with
    | none =>
      simp [arraySetItem, hpi]
      exact hnone.1 hpi
    | some j =>
      have hne : ¬ (idx < -(items.length : Int) ∨ (items.length : Int) ≤ idx) := by
        intro hcon
        rw [hnone.2 hcon] at hpi
        exact Option.noConfusion hpi
      simp [arraySetItem, hpi, hne]
  · intro h1 h2
    unfold arrayGetItem
    rw [pyListIndex_neg_wrap items.length idx h1 h2]
    rfl

/-- Witness for C8 (amended): a one-element Array at index -1 — inside
the wrap-around range, so the access resolves to position 0. -/
theorem c8_index_semantics_witness :
    arrayGetItem [sampleInt5] (-1) = [sampleInt5].get? 0 := by
  have h := (c8_index_semantics [sampleInt5] (-1) (.scalarVal 0)).2.2
    (by decide) (by decide)
  simpa using h

/-- The in-place compound operators `NumberBase` overrides: `__iadd__`,
`__isub__`, `__imul__`, `__idiv__`, `__iand__`, `__ixor__`,
`__ifloordiv__`, `__imod__`, `__ipow__`, `__ilshift__`, `__irshift__`. -/
inductive IOp
  | iadd
  | isub
  | imul
  | idiv
  | iand
  | ixor
  | ifloordiv
  | imod
  | ipow
  | ilshift
  | irshift
deriving DecidableEq

/-- Python 2 integer semantics of `v op k`: `/` and `//` are floor
division, `%` takes the divisor's sign, `**`, `<<` and `>>` are undefined
(`none`) for a negative right operand (`ZeroDivisionError` likewise
`none`), `&`/`^` are two's-complement bitwise. -/
def iopApply : IOp → Int → Int → Option Int
  | .iadd, v, k => some (v + k)
  | .isub, v, k => some (v - k)
  | .imul, v, k => some (v * k)
  | .idiv, v, k => if k = 0 then none else some (Int.fdiv v k)
  | .iand, v, k => some (Int.land v k)
  | .ixor, v, k => some (Int.xor v k)
  | .ifloordiv, v, k => if k = 0 then none else some (Int.fdiv v k)
  | .imod, v, k => if k = 0 then none else some (Int.fmod v k)
  | .ipow, v, k => if k < 0 then none else some (v ^ k.toNat)
  | .ilshift, v, k => if k < 0 then none else some (v * 2 ^ k.toNat)
  | .irshift, v, k => if k < 0 then none else some (Int.fdiv v (2 ^ k.toNat))

/-- Model of the `__i*__` method bodies: each assigns the combined result
to `self._pfp__value` and then falls off the end of the method, so Python
returns `None`.  Result: (field state after the call, the method's Python
return value — `none` models `None`; a conventional implementation would
return `self` here). -/
def numIop (op : IOp) (f : NumField) (k : Int) : Option (NumField × Option NumField) :=
  (iopApply op f.value k).map (fun r => ({ f with value := r }, none))

/-- C9 is a code bug: each `__i*__` method does update the stored scalar
to `v op k`, but returns `None` instead of `self`; Python's augmented
assignment `field op= k` rebinds the target name to the method's return
value, so after `field += 1` the name is bound to `None` (and inside a
Struct, `s.x += 1` then routes `None` through `Struct.__setattr__`,
clobbering the child's freshly updated value).  Evaluated here on an
`Int` field holding 5: every operator stores the combined value and
returns `None`. -/
theorem c9_iop_returns_none :
    numIop .iadd sampleInt5 1 = some ({ sampleInt5 with value := 6 }, none) ∧
      numIop .isub sampleInt5 1 = some ({ sampleInt5 with value := 4 }, none) ∧
      numIop .imul sampleInt5 3 = some ({ sampleInt5 with value := 15 }, none) ∧
      numIop .idiv sampleInt5 2 = some ({ sampleInt5 with value := 2 }, none) ∧
      numIop .iand sampleInt5 3 = some ({ sampleInt5 with value := 1 }, none) ∧
      numIop .ixor sampleInt5 3 = some ({ sampleInt5 with value := 6 }, none) ∧
      numIop .ifloordiv sampleInt5 2 = some ({ sampleInt5 with value := 2 }, none) ∧
      numIop .imod sampleInt5 3 = some ({ sampleInt5 with value := 2 }, none) ∧
      numIop .ipow sampleInt5 2 = some ({ sampleInt5 with value := 25 }, none) ∧
      numIop .ilshift sampleInt5 1 = some ({ sampleInt5 with value := 10 }, none) ∧
      numIop .irshift sampleInt5 1 = some ({ sampleInt5 with value := 2 }, none) := by
  refine ⟨?_, ?_, ?_, ?_, ?_, ?_, ?_, ?_, ?_, ?_, ?_⟩ <;> decide
